import Mathlib

/-!
# DockOps `dockupdater` — verification of the update-checking core

Shallow embedding of `main.go` of the DockOps repository (the `dockupdater`
update-checking engine) together with the parts of its vendored dependency
`github.com/Masterminds/semver` (v1) that the checker calls
(`NewVersion`, `Version.GreaterThan`, `Version.String`).

Modelling conventions:
* Go durations (`time.Duration`, an `int64` of nanoseconds) are `Int`;
  `MaxRetries` (a Go `int`) is `Int` so that negative configured values are
  representable (they matter for the nil-dereference analysis).
* `uint64` parsing (`strconv.ParseUint(_, 10, 64)`) is a `Nat` parse that
  fails on values `≥ 2^64`, exactly as Go's overflow error does.
* The HTTP client is an oracle `net : Nat → DoResult` giving the outcome of
  the `client.Do` call of attempt `i`; the JSON decoding of a successful
  response body is folded into the oracle as an `Except` value.
* Side effects that the spec's claims quantify over are made explicit:
  the tag cache is threaded through as state, and a `FetchTrace` records the
  number of network requests (`client.Do` calls) and the sequence of
  `time.Sleep` delays; the orchestrator records rate-limiter ticks consumed.
-/

deriving instance DecidableEq for Except

namespace DockOps

/-! ## Character-level helpers (Go `strings.Split`, `strconv`) -/

/-- Split a character list at every occurrence of the separator `c`,
mirroring Go's `strings.Split` on a one-character separator
(`""` splits to `[""]`, separators at the ends produce empty fields). -/
def splitOnCh (c : Char) : List Char → List (List Char)
  | [] => [[]]
  | x :: rest =>
    match splitOnCh c rest with
    | [] => if x = c then [[], []] else [[x]]
    | h :: t => if x = c then [] :: h :: t else (x :: h) :: t

/-- Value of a decimal digit string (caller guarantees the digits). -/
def digitsToNat (ds : List Char) : Nat :=
  ds.foldl (fun n c => n * 10 + (c.toNat - 48)) 0

/-- Go `strconv.ParseUint(s, 10, 64)`: succeeds on a nonempty all-digit
string whose value fits in a `uint64`, fails otherwise (including on
overflow, which Go reports as an error). -/
def parseUint64 (s : String) : Option Nat :=
  if s ≠ "" ∧ s.data.all Char.isDigit ∧ digitsToNat s.data < 2 ^ 64 then
    some (digitsToNat s.data)
  else none

/-! ## `Masterminds/semver` v1: `Version`, `NewVersion`, comparison -/

/-- `semver.Version` (v1): numeric segments, prerelease and metadata
strings (without their `-`/`+` markers), and the original input string. -/
structure SemVer where
  major : Nat
  minor : Nat
  patch : Nat
  pre : String
  metadata : String
  original : String
  deriving DecidableEq, Repr

/-- Character class `[0-9A-Za-z-]` of the semver regex (identifier chars
of prerelease/metadata dot-separated parts). -/
def isIdentCh (c : Char) : Bool :=
  c.isDigit || c.isAlpha || c = '-'

/-- A nonempty all-digit regex segment (`[0-9]+`). -/
def validNumSeg (s : String) : Bool :=
  s ≠ "" && s.data.all Char.isDigit

/-- One dot-separated prerelease/metadata part (`[0-9A-Za-z-]+`). -/
def validIdentSeg (s : String) : Bool :=
  s ≠ "" && s.data.all isIdentCh

/-- Split a prerelease/metadata string at the dots (Go `strings.Split(s, ".")`). -/
def splitDots (s : String) : List String :=
  (splitOnCh '.' s.data).map String.mk

/-- A whole prerelease/metadata field:
`[0-9A-Za-z-]+(\.[0-9A-Za-z-]+)*`. -/
def validDotted (s : String) : Bool :=
  (splitDots s).all validIdentSeg

/-- `semver.NewVersion` (v1): match
`^v?([0-9]+)(\.[0-9]+)?(\.[0-9]+)?(-pre)?(\+meta)?$` and parse the numeric
segments with `ParseUint`, defaulting absent minor/patch segments to `0`.
The regex groups are carved out by splitting at the first `+` (metadata;
`+` cannot occur in any identifier) and then at the first `-` before the
metadata (prerelease; `-` cannot occur in a numeric segment), which is the
unique way the anchored regex can match. -/
def NewVersion (str : String) : Option SemVer :=
  let cs :=
    match str.data with
    | 'v' :: rest => rest
    | cs0 => cs0
  let verPre := cs.takeWhile (· ≠ '+')
  let metaRest := cs.dropWhile (· ≠ '+')
  let nums := verPre.takeWhile (· ≠ '-')
  let preRest := verPre.dropWhile (· ≠ '-')
  let meta : Option String :=
    match metaRest with
    | [] => some ""
    | _ :: m => if validDotted (String.mk m) then some (String.mk m) else none
  let pre : Option String :=
    match preRest with
    | [] => some ""
    | _ :: p => if validDotted (String.mk p) then some (String.mk p) else none
  match meta, pre with
  | some md, some pr =>
    let numParts := (splitOnCh '.' nums).map String.mk
    if numParts.all validNumSeg ∧ numParts.length ≤ 3 ∧
        numParts.all (fun p => digitsToNat p.data < 2 ^ 64) then
      some { major := digitsToNat (numParts.getD 0 "").data
             minor := digitsToNat (numParts.getD 1 "").data
             patch := digitsToNat (numParts.getD 2 "").data
             pre := pr
             metadata := md
             original := str }
    else none
  | _, _ => none

/-- `semver.compareSegment`: three-way comparison of numeric segments. -/
def compareSegment (v o : Nat) : Ordering :=
  if v < o then .lt
  else if o < v then .gt
  else .eq

/-- `semver.comparePrePart`: compare one dot-separated prerelease part.
Equal strings are equal; an empty part (the padding for a missing part)
is below any nonempty part; otherwise numbers (per `ParseUint`) are below
alphanumeric strings, numbers compare by value, and strings compare by
Go's lexicographic string order. Note the faithful quirk: two distinct
numeric strings of equal value (leading zeros) answer `lt` in both
directions. -/
def comparePrePart (s o : String) : Ordering :=
  if s = o then .eq
  else if s = "" then (if o ≠ "" then .lt else .gt)
  else if o = "" then (if s ≠ "" then .gt else .lt)
  else
    match parseUint64 o, parseUint64 s with
    | some oi, some si => if oi < si then .gt else .lt
    | some _, none => .gt
    | none, some _ => .lt
    | none, none => if o < s then .gt else .lt

/-- `semver.comparePrerelease`, after splitting both prerelease strings at
the dots: Go pads the shorter part list with `""` up to the longer length
and returns the first nonzero `comparePrePart`; this recursion compares
position by position with the same `""` padding. -/
def cmpPreParts : List String → List String → Ordering
  | [], [] => .eq
  | s :: ss, [] => (comparePrePart s "").then (cmpPreParts ss [])
  | [], o :: os => (comparePrePart "" o).then (cmpPreParts [] os)
  | s :: ss, o :: os => (comparePrePart s o).then (cmpPreParts ss os)

/-- The prerelease step of `semver.Version.Compare`: no prerelease sorts
above any prerelease; two nonempty prereleases are compared part-wise. -/
def cmpPreTop (ps po : String) : Ordering :=
  if ps = "" ∧ po = "" then .eq
  else if ps = "" then .gt
  else if po = "" then .lt
  else cmpPreParts (splitDots ps) (splitDots po)

/-- `semver.Version.Compare`: major, minor, patch, then prerelease. -/
def compareVer (v o : SemVer) : Ordering :=
  ((compareSegment v.major o.major).then
    ((compareSegment v.minor o.minor).then
      ((compareSegment v.patch o.patch).then
        (cmpPreTop v.pre o.pre))))

/-- `semver.Version.GreaterThan`: `v.Compare(o) > 0`. -/
def greaterThan (v o : SemVer) : Bool :=
  compareVer v o = .gt

/-- `semver.Version.String` (what `%s` prints):
`major.minor.patch[-pre][+metadata]`. -/
def verString (v : SemVer) : String :=
  toString v.major ++ "." ++ toString v.minor ++ "." ++ toString v.patch ++
    (if v.pre ≠ "" then "-" ++ v.pre else "") ++
    (if v.metadata ≠ "" then "+" ++ v.metadata else "")

/-! ## Data model of `main.go` -/

/-- `ImageInfo` (main.go:18-22). -/
structure ImageInfo where
  Registry : String
  Repo : String
  Tag : String
  deriving DecidableEq, Repr

/-- `Config` (main.go:24-29). `RateLimit` and `RetryDelay` are durations in
nanoseconds; `MaxRetries` is a Go `int`, so `Int` here (negative values are
representable and survive `loadConfig`'s defaulting). -/
structure Config where
  GCRAccessToken : String
  RateLimit : Int
  MaxRetries : Int
  RetryDelay : Int
  deriving DecidableEq, Repr

/-- The defaulting block of `loadConfig` (main.go:92-101): each field is
replaced by its default exactly when it is `0`. -/
def applyConfigDefaults (c : Config) : Config :=
  let c := if c.RateLimit = 0 then { c with RateLimit := 100000000 } else c
  let c := if c.MaxRetries = 0 then { c with MaxRetries := 3 } else c
  if c.RetryDelay = 0 then { c with RetryDelay := 1000000000 } else c

/-- The tag cache `cache := make(map[string][]string)` (main.go:42), as an
association list whose lookup returns the most recent binding. -/
abbrev Cache := List (String × List String)

/-- Go map read `cache[cacheKey]` (main.go:157). -/
def cacheLookup : Cache → String → Option (List String)
  | [], _ => none
  | (k, v) :: rest, key => if k = key then some v else cacheLookup rest key

/-! ## Remote tag fetcher (`getRemoteTags`, main.go:155-211) -/

/-- Outcome of one `client.Do(req)` call (main.go:183), with the JSON
decoding of a successful body (main.go:205) folded in: `netErr` is a
non-nil transport error (`err != nil`, `resp` nil), `resp` is a response
with its status code and the result of decoding its body. -/
inductive DoResult where
  | netErr (msg : String)
  | resp (status : Nat) (body : Except String (List String))
  deriving Repr

/-- The break condition `err == nil && resp.StatusCode == http.StatusOK`
(main.go:184). -/
def isSuccess : DoResult → Bool
  | .resp 200 _ => true
  | _ => false

/-- The "max retries exceeded" error built from the final failed attempt
(main.go:193-196). -/
def failMsg : DoResult → String
  | .netErr m => "max retries exceeded: error fetching tags: " ++ m
  | .resp s _ => "max retries exceeded: unexpected status code: " ++ toString s

/-- `resp.Body` of the response that broke the loop (meaningful only when
`isSuccess` held, which is the only way the loop breaks). -/
def bodyOf : DoResult → Except String (List String)
  | .netErr m => .error m
  | .resp _ b => b

/-- Observable side effects of one `getRemoteTags` call: how many network
requests (`client.Do` calls) it made and which delays it slept
(`time.Sleep(retryDelay)`, main.go:189), in order. -/
structure FetchTrace where
  requests : Nat := 0
  sleeps : List Int := []
  deriving DecidableEq, Repr

/-- How the retry loop (main.go:165-197) terminates: `done` via the
success `break`, `fail` via an in-loop `return`, `noIter` when the loop
body never ran (`MaxRetries ≤ 0`), leaving `resp` nil. -/
inductive LoopExit where
  | done (body : Except String (List String))
  | noIter
  | fail (msg : String)
  deriving Repr

/-- The retry loop of `getRemoteTags` (main.go:165-197). `i` is the loop
index, `fuel` the number of iterations left (`MaxRetries - i`), `d` the
current `retryDelay`. Each iteration builds the request (modelled as
always succeeding: the URL is well-formed for the inputs considered),
checks the auth token (main.go:176-181), issues `client.Do`, breaks on
success, and otherwise sleeps and doubles the delay when this is not the
last iteration (`i < MaxRetries-1` ⟺ `fuel ≥ 2`) or returns the
"max retries exceeded" error on the last one. -/
def fetchLoop (cfg : Config) (net : Nat → DoResult) (authMethod : String) :
    Nat → Nat → Int → FetchTrace → LoopExit × FetchTrace
  | _, 0, _, acc => (.noIter, acc)
  | i, n + 1, d, acc =>
    if authMethod = "gcloud" ∧ cfg.GCRAccessToken = "" then
      (.fail "GCR_ACCESS_TOKEN not set in config", acc)
    else if isSuccess (net i) then
      (.done (bodyOf (net i)), { acc with requests := acc.requests + 1 })
    else if 1 ≤ n then
      fetchLoop cfg net authMethod (i + 1) n (d * 2)
        { acc with requests := acc.requests + 1, sleeps := acc.sleeps ++ [d] }
    else
      (.fail (failMsg (net i)), { acc with requests := acc.requests + 1 })

/-- Result of `getRemoteTags`: the returned tag list, the returned error,
or the nil-pointer dereference of `resp.Body` (main.go:199) that happens
when the loop never ran. -/
inductive FetchResult where
  | ok (tags : List String)
  | error (msg : String)
  | nilDeref
  deriving DecidableEq, Repr

/-- `getRemoteTags` (main.go:155-211): cache check, retry loop, body
decode, cache population. Returns the result, the updated cache, and the
trace of requests and sleeps. The Go local `cacheKey := registry + "/" +
repo` is written out inline. -/
def getRemoteTags (cfg : Config) (net : Nat → DoResult)
    (registry repo authMethod : String) (cache : Cache) :
    FetchResult × Cache × FetchTrace :=
  match cacheLookup cache (registry ++ "/" ++ repo) with
  | some cachedTags => (.ok cachedTags, cache, {})
  | none =>
    match fetchLoop cfg net authMethod 0 cfg.MaxRetries.toNat cfg.RetryDelay {} with
    | (.fail msg, tr) => (.error msg, cache, tr)
    | (.noIter, tr) => (.nilDeref, cache, tr)
    | (.done body, tr) =>
      match body with
      | .error e => (.error ("error decoding JSON response: " ++ e), cache, tr)
      | .ok tags => (.ok tags, (registry ++ "/" ++ repo, tags) :: cache, tr)

/-! ## Update checker (`checkForUpdates`, main.go:106-131) -/

/-- The `latestVer` loop (main.go:117-124): fold over the remote tags,
keeping the first version each later candidate fails to strictly exceed. -/
def maxStep (acc : Option SemVer) (tag : String) : Option SemVer :=
  match NewVersion tag with
  | none => acc
  | some v =>
    match acc with
    | none => some v
    | some latest => if greaterThan v latest then some v else acc

/-- `latestVer` after the whole loop. -/
def maxRemote (tags : List String) : Option SemVer :=
  tags.foldl maxStep none

/-- The update message (main.go:127). -/
def updateMsg (repo : String) (cur latest : SemVer) : String :=
  "Update available for " ++ repo ++ ": " ++ verString cur ++ " -> " ++
    verString latest

/-- The version-comparison part of `checkForUpdates` (main.go:112-130),
given the fetched remote tags: parse the current tag (its failure is the
wrapped `semver.ErrInvalidSemVer`), select `latestVer`, and emit the
update message or the empty string. -/
def compareTags (image : ImageInfo) (remoteTags : List String) :
    Except String String :=
  match NewVersion image.Tag with
  | none => .error "error parsing current version: Invalid Semantic Version"
  | some currentVer =>
    match maxRemote remoteTags with
    | some latestVer =>
      if greaterThan latestVer currentVer then
        .ok (updateMsg image.Repo currentVer latestVer)
      else .ok ""
    | none => .ok ""

/-- What one image's check produces: the returned string, the returned
error, or a runtime panic (the nil dereference inside the fetcher). -/
inductive CheckOutcome where
  | ok (s : String)
  | err (e : String)
  | panicked
  deriving DecidableEq, Repr

/-- `checkForUpdates` (main.go:106-131): fetch (wrapping its error as
"error getting remote tags"), then compare. -/
def checkForUpdates (cfg : Config) (net : Nat → DoResult) (image : ImageInfo)
    (cache : Cache) : CheckOutcome × Cache × FetchTrace :=
  match getRemoteTags cfg net image.Registry image.Repo "gcloud" cache with
  | (.error msg, c, tr) => (.err ("error getting remote tags: " ++ msg), c, tr)
  | (.nilDeref, c, tr) => (.panicked, c, tr)
  | (.ok remoteTags, c, tr) =>
    match compareTags image remoteTags with
    | .error e => (.err e, c, tr)
    | .ok s => (.ok s, c, tr)

/-! ## Orchestrator (`main`, main.go:49-72) -/

/-- One spawned goroutine's body (main.go:54-62): receive one tick from
the shared rate limiter (`<-rateLimiter.C`, main.go:56) — the returned
`Nat` counts the ticks consumed, always exactly one — then run the check. -/
def imageTask (cfg : Config) (net : Nat → DoResult) (img : ImageInfo)
    (cache : Cache) : CheckOutcome × Cache × Nat :=
  let r := checkForUpdates cfg net img cache
  (r.1, r.2.1, 1)

/-- The fan-out over all local images (main.go:52-63), linearized: each
image's task runs against the cache state left by the previous ones and
its outcome is recorded. -/
def runChecks (cfg : Config) (net : Nat → DoResult) :
    List ImageInfo → Cache → List (ImageInfo × CheckOutcome) × Cache
  | [], cache => ([], cache)
  | img :: rest, cache =>
    let r := imageTask cfg net img cache
    let rs := runChecks cfg net rest r.2.1
    ((img, r.1) :: rs.1, rs.2)

/-- The per-image error log lines (main.go:58). -/
def loggedOf (rs : List (ImageInfo × CheckOutcome)) : List String :=
  rs.filterMap fun p =>
    match p.2 with
    | .err e => some ("Error checking for updates for " ++ p.1.Repo ++ ": " ++ e)
    | _ => none

/-- The results sent to the channel and printed (main.go:59-61, 70-72):
only error-free, nonempty results. -/
def printedOf (rs : List (ImageInfo × CheckOutcome)) : List String :=
  rs.filterMap fun p =>
    match p.2 with
    | .ok s => if s = "" then none else some s
    | _ => none

/-! ## Image-name parsing (`parseImageName`, main.go:213-234 and
`getLocalImages`, main.go:133-153) -/

/-- `parseImageName` (main.go:213-234): split at `/`; require at least two
segments; registry is the first segment; split the last segment at `:` and
require exactly two pieces; the repository is the middle segments joined by
`/` with `"/" ++ name` appended. -/
def parseImageName (name : String) : Except String ImageInfo :=
  let parts := (splitOnCh '/' name.data).map String.mk
  if parts.length < 2 then .error "invalid image name format"
  else
    let registry := parts.getD 0 ""
    let repo := String.intercalate "/" ((parts.drop 1).dropLast)
    let tagParts := (splitOnCh ':' (parts.getLast!).data).map String.mk
    if tagParts.length ≠ 2 then .error "invalid tag format"
    else
      .ok { Registry := registry
            Repo := repo ++ "/" ++ tagParts.getD 0 ""
            Tag := tagParts.getD 1 "" }

/-- The parsing loop of `getLocalImages` (main.go:143-150): parse each
line, skipping and logging failures, never failing the enumeration. -/
def collectImages (lines : List String) : List ImageInfo × List String :=
  match lines with
  | [] => ([], [])
  | line :: rest =>
    let r := collectImages rest
    match parseImageName line with
    | .error e =>
      (r.1, ("Error parsing image name " ++ line ++ ": " ++ e) :: r.2)
    | .ok img => (img :: r.1, r.2)

/-! ## Interleaving model of concurrent first-time fetches (for the race
on the shared cache) -/

/-- Progress of one goroutine's `getRemoteTags` call for a fixed key, cut
at the `client.Do` suspension point: `start` is about to run the cache
check (main.go:157), `fetching` has missed the cache and is inside the
network call, `finished` has returned the given tags. The `Cache × Nat`
state is the shared cache plus the count of successful network fetches
performed for the key. -/
inductive TaskPC where
  | start
  | fetching
  | finished (tags : List String)
  deriving DecidableEq, Repr

/-- One atomic step of such a goroutine against the shared state. -/
def stepTask (key : String) (remoteTags : List String) (pc : TaskPC)
    (s : Cache × Nat) : TaskPC × Cache × Nat :=
  match pc with
  | .start =>
    match cacheLookup s.1 key with
    | some ts => (.finished ts, s)
    | none => (.fetching, s)
  | .fetching => (.finished remoteTags, (key, remoteTags) :: s.1, s.2 + 1)
  | .finished ts => (.finished ts, s)

/-- Shared state of two concurrent checks hitting the same key. -/
structure RaceState where
  cache : Cache
  pc1 : TaskPC
  pc2 : TaskPC
  fetches : Nat

/-- Run one step of the scheduled goroutine (`false` = first, `true` =
second). -/
def raceStep (key : String) (remoteTags : List String) (st : RaceState)
    (which : Bool) : RaceState :=
  if which then
    let r := stepTask key remoteTags st.pc2 (st.cache, st.fetches)
    { st with pc2 := r.1, cache := r.2.1, fetches := r.2.2 }
  else
    let r := stepTask key remoteTags st.pc1 (st.cache, st.fetches)
    { st with pc1 := r.1, cache := r.2.1, fetches := r.2.2 }

/-- Run a whole schedule. -/
def raceRun (key : String) (remoteTags : List String) (sched : List Bool)
    (st : RaceState) : RaceState :=
  sched.foldl (raceStep key remoteTags) st

/-! ## Order-theoretic facts about the embedded comparator

`Version.GreaterThan` must be transitive and irreflexive for the
`latestVer` selection loop to pick a maximum; these lemmas establish that.
(The comparator is *not* antisymmetric in general — two distinct numeric
prerelease identifiers of equal value compare `lt` both ways — but
transitivity and irreflexivity of strict-greater do hold unconditionally,
and they are all the maximum-selection argument needs.) -/

theorem ordThen_eq_gt {a b : Ordering} :
    a.then b = .gt ↔ a = .gt ∨ (a = .eq ∧ b = .gt) := by
  cases a <;> simp [Ordering.then]

theorem ordThen_eq_eq {a b : Ordering} :
    a.then b = .eq ↔ a = .eq ∧ b = .eq := by
  cases a <;> simp [Ordering.then]

theorem parseUint64_empty : parseUint64 "" = none := by
  simp [parseUint64]

theorem parseUint64_ne_empty {s : String} {n : Nat}
    (h : parseUint64 s = some n) : s ≠ "" := by
  intro he
  rw [he, parseUint64_empty] at h
  exact Option.noConfusion h

theorem comparePrePart_self (s : String) : comparePrePart s s = .eq := by
  simp [comparePrePart]

theorem comparePrePart_eq_strict {s o : String}
    (h : comparePrePart s o = .eq) : s = o := by
  by_cases hso : s = o
  · exact hso
  · exfalso
    unfold comparePrePart at h
    rw [if_neg hso] at h
    split_ifs at h
    all_goals split at h <;>
      first
      | exact Ordering.noConfusion h
      | split_ifs at h

/-- Characterization of `comparePrePart s o = .gt`: the padding `""` is
below everything, numbers are below alphanumeric strings, numbers compare
by value, strings compare lexicographically. -/
def PartGt (s o : String) : Prop :=
  (o = "" ∧ s ≠ "") ∨
  (s ≠ "" ∧ o ≠ "" ∧ (∃ oi, parseUint64 o = some oi) ∧ parseUint64 s = none) ∨
  (∃ si oi, parseUint64 s = some si ∧ parseUint64 o = some oi ∧ oi < si) ∨
  (parseUint64 s = none ∧ parseUint64 o = none ∧ s ≠ "" ∧ o ≠ "" ∧ o < s)

theorem comparePrePart_gt_iff (s o : String) :
    comparePrePart s o = .gt ↔ PartGt s o := by
  unfold comparePrePart PartGt
  by_cases hso : s = o
  · rw [if_pos hso]
    constructor
    · intro h
      exact Ordering.noConfusion h
    · rintro (⟨ho, hs⟩ | ⟨_, _, ⟨oi, hpo⟩, hps⟩ | ⟨si, oi, hps, hpo, hlt⟩ |
        ⟨_, _, _, _, hlt⟩)
      · exact absurd (hso.trans ho) hs
      · rw [hso, hpo] at hps
        exact Option.noConfusion hps
      · rw [hso, hpo] at hps
        cases Option.some.inj hps
        exact absurd hlt (lt_irrefl _)
      · rw [hso] at hlt
        exact absurd hlt (lt_irrefl _)
  · rw [if_neg hso]
    by_cases hs : s = ""
    · have ho : o ≠ "" := fun h => hso (hs.trans h.symm)
      rw [if_pos hs, if_pos ho]
      constructor
      · intro h
        exact Ordering.noConfusion h
      · rintro (⟨_, hs'⟩ | ⟨hs', _⟩ | ⟨si, oi, hps, _⟩ | ⟨_, _, hs', _⟩)
        · exact absurd hs hs'
        · exact absurd hs hs'
        · rw [hs, parseUint64_empty] at hps
          exact Option.noConfusion hps
        · exact absurd hs hs'
    · rw [if_neg hs]
      by_cases ho : o = ""
      · rw [if_pos ho, if_pos hs]
        constructor
        · intro _
          exact Or.inl ⟨ho, hs⟩
        · intro _
          rfl
      · rw [if_neg ho]
        rcases hpo : parseUint64 o with _ | oi <;>
          rcases hps : parseUint64 s with _ | si
        · -- both alphanumeric
          change (if o < s then Ordering.gt else Ordering.lt) = Ordering.gt ↔ _
          constructor
          · intro h
            split_ifs at h with hlt
            exact Or.inr (Or.inr (Or.inr ⟨rfl, rfl, hs, ho, hlt⟩))
          · rintro (⟨ho', _⟩ | ⟨_, _, ⟨oi, hpo'⟩, _⟩ | ⟨si, oi, hps', _⟩ |
              ⟨_, _, _, _, hlt⟩)
            · exact absurd ho' ho
            · exact Option.noConfusion hpo'
            · exact Option.noConfusion hps'
            · exact if_pos hlt
        · -- s numeric, o alphanumeric: `.lt`
          change Ordering.lt = Ordering.gt ↔ _
          constructor
          · intro h
            exact Ordering.noConfusion h
          · rintro (⟨ho', _⟩ | ⟨_, _, ⟨oi, hpo'⟩, _⟩ | ⟨si', oi, _, hpo', _⟩ |
              ⟨hps', _⟩)
            · exact absurd ho' ho
            · exact Option.noConfusion hpo'
            · exact Option.noConfusion hpo'
            · exact Option.noConfusion hps'
        · -- s alphanumeric, o numeric: `.gt`
          change Ordering.gt = Ordering.gt ↔ _
          constructor
          · intro _
            exact Or.inr (Or.inl ⟨hs, ho, ⟨oi, rfl⟩, rfl⟩)
          · intro _
            rfl
        · -- both numeric
          change (if oi < si then Ordering.gt else Ordering.lt) = Ordering.gt ↔ _
          constructor
          · intro h
            split_ifs at h with hlt
            exact Or.inr (Or.inr (Or.inl ⟨si, oi, rfl, rfl, hlt⟩))
          · rintro (⟨ho', _⟩ | ⟨_, _, _, hps'⟩ | ⟨si', oi', hps', hpo', hlt⟩ |
              ⟨hps', _⟩)
            · exact absurd ho' ho
            · exact Option.noConfusion hps'
            · cases Option.some.inj hps'
              cases Option.some.inj hpo'
              exact if_pos hlt
            · exact Option.noConfusion hps'

theorem PartGt_trans {a b c : String} (h1 : PartGt a b) (h2 : PartGt b c) :
    PartGt a c := by
  rcases h1 with ⟨hb, ha⟩ | ⟨ha, hb, ⟨bi, hpb⟩, hpa⟩ | ⟨ai, bi, hpa, hpb, hab⟩ |
    ⟨hpa, hpb, ha, hb, hab⟩
  · -- b = "": no PartGt b c is possible
    exfalso
    rcases h2 with ⟨_, hb2⟩ | ⟨hb2, _⟩ | ⟨bi, _, hpb2, _⟩ | ⟨_, _, hb2, _⟩
    · exact hb2 hb
    · exact hb2 hb
    · exact parseUint64_ne_empty hpb2 hb
    · exact hb2 hb
  · -- a alphanumeric, b numeric
    rcases h2 with ⟨hc, _⟩ | ⟨_, _, _, hpb2⟩ | ⟨bi2, ci, hpb2, hpc, _⟩ |
      ⟨hpb2, _⟩
    · exact Or.inl ⟨hc, ha⟩
    · rw [hpb] at hpb2; exact Option.noConfusion hpb2
    · exact Or.inr (Or.inl ⟨ha, parseUint64_ne_empty hpc, ⟨ci, hpc⟩, hpa⟩)
    · rw [hpb] at hpb2; exact Option.noConfusion hpb2
  · -- a, b numeric with value b < value a
    rcases h2 with ⟨hc, _⟩ | ⟨_, _, _, hpb2⟩ | ⟨bi2, ci, hpb2, hpc, hbc⟩ |
      ⟨hpb2, _⟩
    · exact Or.inl ⟨hc, parseUint64_ne_empty hpa⟩
    · rw [hpb] at hpb2; exact Option.noConfusion hpb2
    · rw [hpb] at hpb2
      cases Option.some.inj hpb2
      exact Or.inr (Or.inr (Or.inl ⟨ai, ci, hpa, hpc, Nat.lt_trans hbc hab⟩))
    · rw [hpb] at hpb2; exact Option.noConfusion hpb2
  · -- a, b alphanumeric with b < a lexicographically
    rcases h2 with ⟨hc, _⟩ | ⟨_, hc, hpc, hpb2⟩ | ⟨bi, _, hpb2, _⟩ |
      ⟨hpb2, hpc, _, hc, hbc⟩
    · exact Or.inl ⟨hc, ha⟩
    · exact Or.inr (Or.inl ⟨ha, hc, hpc, hpa⟩)
    · rw [hpb] at hpb2; exact Option.noConfusion hpb2
    · exact Or.inr (Or.inr (Or.inr ⟨hpa, hpc, ha, hc, lt_trans hbc hab⟩))

theorem comparePrePart_gt_trans {a b c : String}
    (h1 : comparePrePart a b = .gt) (h2 : comparePrePart b c = .gt) :
    comparePrePart a c = .gt := by
  rw [comparePrePart_gt_iff] at h1 h2 ⊢
  exact PartGt_trans h1 h2

theorem comparePrePart_gt_left_ne {s o : String}
    (h : comparePrePart s o = .gt) : s ≠ "" := by
  rw [comparePrePart_gt_iff] at h
  rcases h with ⟨_, hs⟩ | ⟨hs, _⟩ | ⟨si, _, hps, _⟩ | ⟨_, _, hs, _⟩
  · exact hs
  · exact hs
  · exact parseUint64_ne_empty hps
  · exact hs

theorem comparePrePart_gt_empty {s : String} (hs : s ≠ "") :
    comparePrePart s "" = .gt := by
  rw [comparePrePart_gt_iff]
  exact Or.inl ⟨rfl, hs⟩

theorem comparePrePart_empty_left (o : String) :
    comparePrePart "" o = if o = "" then Ordering.eq else Ordering.lt := by
  by_cases h : o = ""
  · rw [if_pos h, h]
    exact comparePrePart_self ""
  · rw [if_neg h]
    unfold comparePrePart
    rw [if_neg (fun hh : "" = o => h hh.symm), if_pos rfl, if_pos h]

theorem cmpPreParts_nil_left : ∀ b : List String, cmpPreParts [] b ≠ .gt := by
  intro b
  induction b with
  | nil =>
    intro h
    rw [cmpPreParts] at h
    exact Ordering.noConfusion h
  | cons o os ih =>
    intro h
    rw [cmpPreParts, comparePrePart_empty_left] at h
    by_cases ho : o = ""
    · rw [if_pos ho] at h
      exact ih h
    · rw [if_neg ho] at h
      exact Ordering.noConfusion h

theorem cmpPreParts_self : ∀ l : List String, cmpPreParts l l = .eq := by
  intro l
  induction l with
  | nil => rw [cmpPreParts]
  | cons s ss ih =>
    rw [cmpPreParts, comparePrePart_self, ih]
    rfl

theorem cmpPreParts_gt_trans : ∀ a b c : List String,
    cmpPreParts a b = .gt → cmpPreParts b c = .gt → cmpPreParts a c = .gt := by
  have main : ∀ n (a b c : List String),
      a.length + b.length + c.length ≤ n →
      cmpPreParts a b = .gt → cmpPreParts b c = .gt →
      cmpPreParts a c = .gt := by
    intro n
    induction n with
    | zero =>
      intro a b c hlen h1 _
      have ha : a = [] := List.length_eq_zero.mp (by omega)
      subst ha
      exact absurd h1 (cmpPreParts_nil_left b)
    | succ n ih =>
      intro a b c hlen h1 h2
      match a, b, c with
      | a, [], c =>
        exact absurd h2 (cmpPreParts_nil_left c)
      | [], o :: os, c =>
        exact absurd h1 (cmpPreParts_nil_left (o :: os))
      | s :: ss, o :: os, [] =>
        rw [cmpPreParts] at h1
        rw [cmpPreParts] at h2
        rw [cmpPreParts]
        rcases ordThen_eq_gt.mp h2 with hgt2 | ⟨heq2, hrest2⟩
        · have ho : o ≠ "" := comparePrePart_gt_left_ne hgt2
          rcases ordThen_eq_gt.mp h1 with hgt1 | ⟨heq1, _⟩
          · exact ordThen_eq_gt.mpr
              (Or.inl (comparePrePart_gt_empty (comparePrePart_gt_left_ne hgt1)))
          · have hso : s = o := comparePrePart_eq_strict heq1
            exact ordThen_eq_gt.mpr
              (Or.inl (comparePrePart_gt_empty (hso ▸ ho)))
        · have ho : o = "" := comparePrePart_eq_strict heq2
          rcases ordThen_eq_gt.mp h1 with hgt1 | ⟨heq1, hrest1⟩
          · exact ordThen_eq_gt.mpr
              (Or.inl (comparePrePart_gt_empty (comparePrePart_gt_left_ne hgt1)))
          · have hso : s = o := comparePrePart_eq_strict heq1
            have hs : s = "" := hso.trans ho
            have hrec : cmpPreParts ss [] = .gt := by
              apply ih ss os []
              · simp at hlen ⊢
                omega
              · exact hrest1
              · exact hrest2
            refine ordThen_eq_gt.mpr (Or.inr ⟨?_, hrec⟩)
            rw [hs]
            exact comparePrePart_self ""
      | s :: ss, o :: os, x :: xs =>
        rw [cmpPreParts] at h1
        rw [cmpPreParts] at h2
        rw [cmpPreParts]
        rcases ordThen_eq_gt.mp h1 with hgt1 | ⟨heq1, hrest1⟩ <;>
          rcases ordThen_eq_gt.mp h2 with hgt2 | ⟨heq2, hrest2⟩
        · exact ordThen_eq_gt.mpr (Or.inl (comparePrePart_gt_trans hgt1 hgt2))
        · have hox : o = x := comparePrePart_eq_strict heq2
          exact ordThen_eq_gt.mpr (Or.inl (hox ▸ hgt1))
        · have hso : s = o := comparePrePart_eq_strict heq1
          exact ordThen_eq_gt.mpr (Or.inl (hso ▸ hgt2))
        · have hso : s = o := comparePrePart_eq_strict heq1
          have hox : o = x := comparePrePart_eq_strict heq2
          have hrec : cmpPreParts ss xs = .gt := by
            apply ih ss os xs
            · simp at hlen ⊢
              omega
            · exact hrest1
            · exact hrest2
          refine ordThen_eq_gt.mpr (Or.inr ⟨?_, hrec⟩)
          rw [hso, hox]
          exact comparePrePart_self x
  intro a b c
  exact main (a.length + b.length + c.length) a b c le_rfl

theorem compareSegment_self (a : Nat) : compareSegment a a = .eq := by
  simp [compareSegment]

theorem compareSegment_eq_strict {a b : Nat}
    (h : compareSegment a b = .eq) : a = b := by
  unfold compareSegment at h
  split_ifs at h
  omega

theorem compareSegment_gt_iff {a b : Nat} :
    compareSegment a b = .gt ↔ b < a := by
  unfold compareSegment
  split_ifs with h1 h2
  · constructor
    · intro h
      exact h.elim
    · intro h
      omega
  · constructor
    · intro _
      exact h2
    · intro _
      rfl
  · constructor
    · intro h
      exact h.elim
    · intro h
      omega

theorem cmpPreTop_self (p : String) : cmpPreTop p p = .eq := by
  unfold cmpPreTop
  by_cases h : p = ""
  · rw [if_pos ⟨h, h⟩]
  · rw [if_neg (fun hh => h hh.1), if_neg h, if_neg h]
    exact cmpPreParts_self _

theorem cmpPreTop_gt_trans {a b c : String}
    (h1 : cmpPreTop a b = .gt) (h2 : cmpPreTop b c = .gt) :
    cmpPreTop a c = .gt := by
  unfold cmpPreTop at h1 h2 ⊢
  by_cases hb : b = ""
  · exfalso
    by_cases ha : a = ""
    · rw [if_pos ⟨ha, hb⟩] at h1
      exact Ordering.noConfusion h1
    · rw [if_neg (fun hh => ha hh.1), if_neg ha, if_pos hb] at h1
      exact Ordering.noConfusion h1
  · have hc : c ≠ "" := by
      intro hc
      rw [if_neg (fun hh => hb hh.1), if_neg hb, if_pos hc] at h2
      exact Ordering.noConfusion h2
    rw [if_neg (fun hh => hb hh.1), if_neg hb, if_neg hc] at h2
    by_cases ha : a = ""
    · rw [if_neg (fun hh => hc hh.2), if_pos ha]
    · rw [if_neg (fun hh => ha hh.1), if_neg ha, if_neg hb] at h1
      rw [if_neg (fun hh => ha hh.1), if_neg ha, if_neg hc]
      exact cmpPreParts_gt_trans _ _ _ h1 h2

theorem segThen_gt_trans {x y z : Nat} {u v w : Ordering}
    (hw : u = .gt → v = .gt → w = .gt)
    (h1 : (compareSegment x y).then u = .gt)
    (h2 : (compareSegment y z).then v = .gt) :
    (compareSegment x z).then w = .gt := by
  rcases ordThen_eq_gt.mp h1 with g1 | ⟨e1, hu⟩ <;>
    rcases ordThen_eq_gt.mp h2 with g2 | ⟨e2, hv⟩
  · refine ordThen_eq_gt.mpr (Or.inl ?_)
    rw [compareSegment_gt_iff] at g1 g2 ⊢
    omega
  · cases compareSegment_eq_strict e2
    exact ordThen_eq_gt.mpr (Or.inl g1)
  · cases compareSegment_eq_strict e1
    exact ordThen_eq_gt.mpr (Or.inl g2)
  · cases compareSegment_eq_strict e1
    cases compareSegment_eq_strict e2
    exact ordThen_eq_gt.mpr (Or.inr ⟨compareSegment_self _, hw hu hv⟩)

theorem compareVer_self (v : SemVer) : compareVer v v = .eq := by
  unfold compareVer
  rw [compareSegment_self, compareSegment_self, compareSegment_self,
    cmpPreTop_self]
  rfl

theorem compareVer_gt_trans {a b c : SemVer}
    (h1 : compareVer a b = .gt) (h2 : compareVer b c = .gt) :
    compareVer a c = .gt := by
  unfold compareVer at h1 h2 ⊢
  refine segThen_gt_trans (fun p1 p2 => ?_) h1 h2
  refine segThen_gt_trans (fun q1 q2 => ?_) p1 p2
  refine segThen_gt_trans (fun r1 r2 => ?_) q1 q2
  exact cmpPreTop_gt_trans r1 r2

theorem greaterThan_irrefl (v : SemVer) : greaterThan v v = false := by
  simp [greaterThan, compareVer_self]

theorem greaterThan_trans {a b c : SemVer} (h1 : greaterThan a b = true)
    (h2 : greaterThan b c = true) : greaterThan a c = true := by
  simp only [greaterThan, decide_eq_true_eq] at h1 h2 ⊢
  exact compareVer_gt_trans h1 h2

theorem greaterThan_asymm {a b : SemVer} (h : greaterThan a b = true) :
    greaterThan b a = false := by
  cases hg : greaterThan b a
  · rfl
  · have hres := greaterThan_trans h hg
    rw [greaterThan_irrefl] at hres
    exact Bool.noConfusion hres

/-! ## The `latestVer` fold selects a maximum -/

theorem maxStep_none_tag {acc : Option SemVer} {t : String}
    (hnv : NewVersion t = none) : maxStep acc t = acc := by
  unfold maxStep
  rw [hnv]

theorem maxStep_none_acc {t : String} {v : SemVer}
    (hnv : NewVersion t = some v) : maxStep none t = some v := by
  unfold maxStep
  rw [hnv]

theorem maxStep_won {t : String} {v l : SemVer}
    (hnv : NewVersion t = some v) (hg : greaterThan v l = true) :
    maxStep (some l) t = some v := by
  unfold maxStep
  rw [hnv]
  exact if_pos hg

theorem maxStep_lost {t : String} {v l : SemVer}
    (hnv : NewVersion t = some v) (hg : greaterThan v l = false) :
    maxStep (some l) t = some l := by
  unfold maxStep
  rw [hnv]
  exact if_neg (by rw [hg]; exact Bool.noConfusion)

theorem maxStep_cases (acc : Option SemVer) (t : String) :
    maxStep acc t = acc ∨
    (∃ v, NewVersion t = some v ∧ maxStep acc t = some v ∧
      (∀ x, acc = some x → greaterThan v x = true)) := by
  cases hnv : NewVersion t with
  | none => exact Or.inl (maxStep_none_tag hnv)
  | some v =>
    cases acc with
    | none =>
      exact Or.inr ⟨v, rfl, maxStep_none_acc hnv,
        fun x hx => Option.noConfusion hx⟩
    | some l =>
      cases hg : greaterThan v l with
      | true =>
        refine Or.inr ⟨v, rfl, maxStep_won hnv hg, ?_⟩
        intro x hx
        cases Option.some.inj hx
        exact hg
      | false => exact Or.inl (maxStep_lost hnv hg)

theorem foldl_maxStep_mem :
    ∀ (tags : List String) (acc : Option SemVer) (m : SemVer),
      List.foldl maxStep acc tags = some m →
      acc = some m ∨ m ∈ tags.filterMap NewVersion := by
  intro tags
  induction tags with
  | nil =>
    intro acc m h
    exact Or.inl h
  | cons t ts ih =>
    intro acc m h
    rw [List.foldl_cons] at h
    rcases ih _ m h with hacc | hmem
    · rcases maxStep_cases acc t with heq | ⟨v, hnv, hstep, _⟩
      · rw [heq] at hacc
        exact Or.inl hacc
      · rw [hstep] at hacc
        cases Option.some.inj hacc
        right
        rw [List.filterMap_cons, hnv]
        exact List.mem_cons_self _ _
    · right
      rw [List.filterMap_cons]
      cases NewVersion t
      · exact hmem
      · exact List.mem_cons_of_mem _ hmem

theorem foldl_maxStep_chain :
    ∀ (tags : List String) (x m : SemVer),
      List.foldl maxStep (some x) tags = some m →
      m = x ∨ greaterThan m x = true := by
  intro tags
  induction tags with
  | nil =>
    intro x m h
    exact Or.inl (Option.some.inj h).symm
  | cons t ts ih =>
    intro x m h
    rw [List.foldl_cons] at h
    rcases maxStep_cases (some x) t with heq | ⟨v, _, hstep, hgt⟩
    · rw [heq] at h
      exact ih x m h
    · rw [hstep] at h
      have hvx : greaterThan v x = true := hgt x rfl
      rcases ih v m h with hmv | hmv
      · cases hmv
        exact Or.inr hvx
      · exact Or.inr (greaterThan_trans hmv hvx)

theorem foldl_maxStep_ub :
    ∀ (tags : List String) (acc : Option SemVer) (m : SemVer),
      List.foldl maxStep acc tags = some m →
      (∀ x, acc = some x → greaterThan x m = false) →
      ∀ v ∈ tags.filterMap NewVersion, greaterThan v m = false := by
  intro tags
  induction tags with
  | nil =>
    intro acc m _ _ v hv
    simp at hv
  | cons t ts ih =>
    intro acc m h hacc v hv
    rw [List.foldl_cons] at h
    have hacc' : ∀ y, maxStep acc t = some y → greaterThan y m = false := by
      intro y hy
      rcases maxStep_cases acc t with heq | ⟨w, _, hstep, _⟩
      · rw [heq] at hy
        exact hacc y hy
      · rw [hstep] at hy
        cases Option.some.inj hy
        rw [hstep] at h
        rcases foldl_maxStep_chain ts y m h with hmy | hmy
        · cases hmy
          exact greaterThan_irrefl m
        · exact greaterThan_asymm hmy
    rw [List.filterMap_cons] at hv
    cases hnv : NewVersion t with
    | none =>
      rw [hnv] at hv
      exact ih _ m h hacc' v hv
    | some w =>
      rw [hnv] at hv
      rcases List.mem_cons.mp hv with hvw | hvmem
      · cases hvw
        -- head bound: `v` is the version parsed from `t`
        cases acc with
        | none =>
          exact hacc' v (by rw [maxStep_none_acc hnv])
        | some l =>
          cases hg : greaterThan v l with
          | true =>
            exact hacc' v (by rw [maxStep_won hnv hg])
          | false =>
            rw [maxStep_lost hnv hg] at h
            rcases foldl_maxStep_chain ts l m h with hml | hml
            · cases hml
              exact hg
            · cases hg2 : greaterThan v m with
              | false => rfl
              | true =>
                have hvl := greaterThan_trans hg2 hml
                rw [hg] at hvl
                exact Bool.noConfusion hvl
      · exact ih _ m h hacc' v hvmem

theorem maxRemote_mem {tags : List String} {m : SemVer}
    (h : maxRemote tags = some m) : m ∈ tags.filterMap NewVersion := by
  rcases foldl_maxStep_mem tags none m h with hacc | hmem
  · exact Option.noConfusion hacc
  · exact hmem

theorem maxRemote_ub {tags : List String} {m : SemVer}
    (h : maxRemote tags = some m) :
    ∀ v ∈ tags.filterMap NewVersion, greaterThan v m = false :=
  foldl_maxStep_ub tags none m h (fun _ hx => Option.noConfusion hx)

theorem foldl_maxStep_some_ne_none :
    ∀ (tags : List String) (x : SemVer),
      List.foldl maxStep (some x) tags ≠ none := by
  intro tags
  induction tags with
  | nil =>
    intro x h
    exact Option.noConfusion h
  | cons t ts ih =>
    intro x h
    rw [List.foldl_cons] at h
    cases hnv : NewVersion t with
    | none =>
      rw [maxStep_none_tag hnv] at h
      exact ih x h
    | some v =>
      cases hg : greaterThan v x with
      | true =>
        rw [maxStep_won hnv hg] at h
        exact ih v h
      | false =>
        rw [maxStep_lost hnv hg] at h
        exact ih x h

theorem maxRemote_none_iff {tags : List String} :
    maxRemote tags = none ↔ tags.filterMap NewVersion = [] := by
  unfold maxRemote
  induction tags with
  | nil => simp
  | cons t ts ih =>
    rw [List.foldl_cons, List.filterMap_cons]
    cases hnv : NewVersion t with
    | none =>
      rw [maxStep_none_tag hnv]
      exact ih
    | some v =>
      rw [maxStep_none_acc hnv]
      constructor
      · intro h
        exact absurd h (foldl_maxStep_some_ne_none ts v)
      · intro h
        exact List.noConfusion h

/-! ## Behaviour of the fetcher -/

theorem fetchLoop_ne_noIter (cfg : Config) (net : Nat → DoResult)
    (am : String) :
    ∀ (n i : Nat) (d : Int) (acc : FetchTrace), 1 ≤ n →
      (fetchLoop cfg net am i n d acc).1 ≠ .noIter := by
  intro n
  induction n with
  | zero =>
    intro i d acc h
    omega
  | succ k ih =>
    intro i d acc _
    rw [fetchLoop]
    split_ifs with h1 h2 h3
    · exact fun hh => LoopExit.noConfusion hh
    · exact fun hh => LoopExit.noConfusion hh
    · exact ih (i + 1) (d * 2) _ h3
    · exact fun hh => LoopExit.noConfusion hh

theorem fetchLoop_all_fail (cfg : Config) (net : Nat → DoResult) (am : String)
    (hauth : ¬(am = "gcloud" ∧ cfg.GCRAccessToken = ""))
    (hfail : ∀ j, isSuccess (net j) = false) :
    ∀ (n i : Nat) (d : Int) (acc : FetchTrace),
      fetchLoop cfg net am i (n + 1) d acc =
        (.fail (failMsg (net (i + n))),
          ⟨acc.requests + (n + 1),
            acc.sleeps ++ (List.range n).map (fun j => d * 2 ^ j)⟩) := by
  intro n
  induction n with
  | zero =>
    intro i d acc
    have hf : ¬(isSuccess (net i) = true) := by
      rw [hfail i]
      exact Bool.noConfusion
    rw [fetchLoop, if_neg hauth, if_neg hf,
      if_neg (by omega : ¬(1 : Nat) ≤ 0)]
    simp
  | succ k ih =>
    intro i d acc
    have hf : ¬(isSuccess (net i) = true) := by
      rw [hfail i]
      exact Bool.noConfusion
    rw [fetchLoop, if_neg hauth, if_neg hf, if_pos (by omega : 1 ≤ k + 1)]
    rw [ih (i + 1) (d * 2) _]
    have hidx : i + 1 + k = i + (k + 1) := by omega
    rw [hidx]
    have hsleeps :
        (acc.sleeps ++ [d]) ++ (List.range k).map (fun j => d * 2 * 2 ^ j) =
          acc.sleeps ++ (List.range (k + 1)).map (fun j => d * 2 ^ j) := by
      rw [List.append_assoc]
      congr 1
      rw [List.range_succ_eq_map, List.map_cons, List.map_map]
      simp only [pow_zero, mul_one, List.singleton_append]
      congr 1
      refine congrArg (fun f => List.map f (List.range k)) ?_
      funext j
      simp only [Function.comp, Nat.succ_eq_add_one]
      ring
    rw [show acc.requests + 1 + (k + 1) = acc.requests + (k + 1 + 1) from by
      omega]
    rw [hsleeps]

theorem getRemoteTags_hit {cfg : Config} {net : Nat → DoResult}
    {reg repo am : String} {cache : Cache} {tags : List String}
    (hhit : cacheLookup cache (reg ++ "/" ++ repo) = some tags) :
    getRemoteTags cfg net reg repo am cache = (.ok tags, cache, {}) := by
  unfold getRemoteTags
  rw [hhit]

theorem getRemoteTags_miss_eq {cfg : Config} {net : Nat → DoResult}
    {reg repo am : String} {cache : Cache}
    (hmiss : cacheLookup cache (reg ++ "/" ++ repo) = none) :
    getRemoteTags cfg net reg repo am cache =
      (match fetchLoop cfg net am 0 cfg.MaxRetries.toNat cfg.RetryDelay {} with
      | (.fail msg, tr) => (.error msg, cache, tr)
      | (.noIter, tr) => (.nilDeref, cache, tr)
      | (.done body, tr) =>
        match body with
        | .error e =>
          (.error ("error decoding JSON response: " ++ e), cache, tr)
        | .ok tags => (.ok tags, (reg ++ "/" ++ repo, tags) :: cache, tr)) := by
  unfold getRemoteTags
  rw [hmiss]

theorem getRemoteTags_ok_cache {cfg : Config} {net : Nat → DoResult}
    {reg repo am : String} {cache c : Cache} {tags : List String}
    {tr : FetchTrace}
    (hmiss : cacheLookup cache (reg ++ "/" ++ repo) = none)
    (h : getRemoteTags cfg net reg repo am cache = (.ok tags, c, tr)) :
    c = (reg ++ "/" ++ repo, tags) :: cache := by
  rw [getRemoteTags_miss_eq hmiss] at h
  split at h
  · rcases Prod.mk.injEq .. ▸ h with ⟨h1, _⟩
    exact absurd h1.symm (by intro hh; exact FetchResult.noConfusion hh)
  · rcases Prod.mk.injEq .. ▸ h with ⟨h1, _⟩
    exact absurd h1.symm (by intro hh; exact FetchResult.noConfusion hh)
  · split at h
    · rcases Prod.mk.injEq .. ▸ h with ⟨h1, _⟩
      exact absurd h1.symm (by intro hh; exact FetchResult.noConfusion hh)
    · rcases Prod.mk.injEq .. ▸ h with ⟨h1, h2⟩
      rcases Prod.mk.injEq .. ▸ h2 with ⟨h3, _⟩
      cases FetchResult.ok.inj h1
      exact h3.symm

theorem getRemoteTags_error_cache {cfg : Config} {net : Nat → DoResult}
    {reg repo am : String} {cache c : Cache} {msg : String} {tr : FetchTrace}
    (h : getRemoteTags cfg net reg repo am cache = (.error msg, c, tr)) :
    c = cache := by
  cases hl : cacheLookup cache (reg ++ "/" ++ repo) with
  | some tags =>
    rw [getRemoteTags_hit hl] at h
    rcases Prod.mk.injEq .. ▸ h with ⟨h1, _⟩
    exact absurd h1 (by intro hh; exact FetchResult.noConfusion hh)
  | none =>
    rw [getRemoteTags_miss_eq hl] at h
    split at h
    · rcases Prod.mk.injEq .. ▸ h with ⟨_, h2⟩
      exact (Prod.mk.injEq .. ▸ h2).1.symm
    · rcases Prod.mk.injEq .. ▸ h with ⟨h1, _⟩
      exact absurd h1 (by intro hh; exact FetchResult.noConfusion hh)
    · split at h
      · rcases Prod.mk.injEq .. ▸ h with ⟨_, h2⟩
        exact (Prod.mk.injEq .. ▸ h2).1.symm
      · rcases Prod.mk.injEq .. ▸ h with ⟨h1, _⟩
        exact absurd h1 (by intro hh; exact FetchResult.noConfusion hh)

theorem getRemoteTags_nilDeref_cache {cfg : Config} {net : Nat → DoResult}
    {reg repo am : String} {cache c : Cache} {tr : FetchTrace}
    (h : getRemoteTags cfg net reg repo am cache = (.nilDeref, c, tr)) :
    c = cache := by
  cases hl : cacheLookup cache (reg ++ "/" ++ repo) with
  | some tags =>
    rw [getRemoteTags_hit hl] at h
    rcases Prod.mk.injEq .. ▸ h with ⟨h1, _⟩
    exact absurd h1 (by intro hh; exact FetchResult.noConfusion hh)
  | none =>
    rw [getRemoteTags_miss_eq hl] at h
    split at h
    · rcases Prod.mk.injEq .. ▸ h with ⟨h1, _⟩
      exact absurd h1 (by intro hh; exact FetchResult.noConfusion hh)
    · rcases Prod.mk.injEq .. ▸ h with ⟨_, h2⟩
      exact (Prod.mk.injEq .. ▸ h2).1.symm
    · split at h
      · rcases Prod.mk.injEq .. ▸ h with ⟨h1, _⟩
        exact absurd h1 (by intro hh; exact FetchResult.noConfusion hh)
      · rcases Prod.mk.injEq .. ▸ h with ⟨h1, _⟩
        exact absurd h1 (by intro hh; exact FetchResult.noConfusion hh)

theorem cacheLookup_cons (k : String) (v : List String) (c : Cache)
    (key : String) :
    cacheLookup ((k, v) :: c) key =
      if k = key then some v else cacheLookup c key := rfl

/-- The cache only grows: an existing binding survives any fetch. -/
theorem getRemoteTags_cache_mono {cfg : Config} {net : Nat → DoResult}
    {reg repo am : String} {cache : Cache} {k : String} {v : List String}
    (hk : cacheLookup cache k = some v) :
    cacheLookup (getRemoteTags cfg net reg repo am cache).2.1 k = some v := by
  cases hl : cacheLookup cache (reg ++ "/" ++ repo) with
  | some tags =>
    rw [getRemoteTags_hit hl]
    exact hk
  | none =>
    rw [getRemoteTags_miss_eq hl]
    split
    · exact hk
    · exact hk
    · split
      · exact hk
      · rw [cacheLookup_cons]
        have hne : ¬(reg ++ "/" ++ repo = k) := by
          intro hh
          rw [hh] at hl
          rw [hl] at hk
          exact Option.noConfusion hk
        rw [if_neg hne]
        exact hk

/-! ## Behaviour of the checker and the orchestrator -/

theorem compareTags_parse_fail {image : ImageInfo} {tags : List String}
    (h : NewVersion image.Tag = none) :
    compareTags image tags =
      .error "error parsing current version: Invalid Semantic Version" := by
  unfold compareTags
  rw [h]

theorem compareTags_parse_ok {image : ImageInfo} {tags : List String}
    {cur : SemVer} (h : NewVersion image.Tag = some cur) :
    compareTags image tags =
      (match maxRemote tags with
      | some latestVer =>
        if greaterThan latestVer cur then
          .ok (updateMsg image.Repo cur latestVer)
        else .ok ""
      | none => .ok "") := by
  unfold compareTags
  rw [h]

theorem compareTags_result {image : ImageInfo} {tags : List String}
    {cur m : SemVer} (hcur : NewVersion image.Tag = some cur)
    (hmax : maxRemote tags = some m) :
    compareTags image tags =
      if greaterThan m cur = true then .ok (updateMsg image.Repo cur m)
      else .ok "" := by
  rw [compareTags_parse_ok hcur, hmax]

theorem compareTags_none {image : ImageInfo} {tags : List String}
    {cur : SemVer} (hcur : NewVersion image.Tag = some cur)
    (hmax : maxRemote tags = none) :
    compareTags image tags = .ok "" := by
  rw [compareTags_parse_ok hcur, hmax]

theorem checkForUpdates_fetch_ok {cfg : Config} {net : Nat → DoResult}
    {image : ImageInfo} {cache c : Cache} {tags : List String}
    {tr : FetchTrace}
    (h : getRemoteTags cfg net image.Registry image.Repo "gcloud" cache =
      (.ok tags, c, tr)) :
    checkForUpdates cfg net image cache =
      (match compareTags image tags with
      | .error e => (.err e, c, tr)
      | .ok s => (.ok s, c, tr)) := by
  unfold checkForUpdates
  rw [h]

theorem checkForUpdates_fetch_error {cfg : Config} {net : Nat → DoResult}
    {image : ImageInfo} {cache c : Cache} {msg : String} {tr : FetchTrace}
    (h : getRemoteTags cfg net image.Registry image.Repo "gcloud" cache =
      (.error msg, c, tr)) :
    checkForUpdates cfg net image cache =
      (.err ("error getting remote tags: " ++ msg), c, tr) := by
  unfold checkForUpdates
  rw [h]

theorem checkForUpdates_cache_mono {cfg : Config} {net : Nat → DoResult}
    {img : ImageInfo} {cache : Cache} {k : String} {v : List String}
    (hk : cacheLookup cache k = some v) :
    cacheLookup (checkForUpdates cfg net img cache).2.1 k = some v := by
  have hmono :=
    @getRemoteTags_cache_mono cfg net img.Registry img.Repo "gcloud" cache k v
      hk
  unfold checkForUpdates
  split
  · rename_i c tr heq
    rw [heq] at hmono
    exact hmono
  · rename_i c tr heq
    rw [heq] at hmono
    exact hmono
  · rename_i tags c tr heq
    rw [heq] at hmono
    split
    · exact hmono
    · exact hmono

theorem checkForUpdates_parse_fail_of_hit {cfg : Config} {net : Nat → DoResult}
    {img : ImageInfo} {cache : Cache} {tags : List String}
    (hhit : cacheLookup cache (img.Registry ++ "/" ++ img.Repo) = some tags)
    (htag : NewVersion img.Tag = none) :
    checkForUpdates cfg net img cache =
      (.err "error parsing current version: Invalid Semantic Version",
        cache, {}) := by
  rw [checkForUpdates_fetch_ok (getRemoteTags_hit hhit),
    compareTags_parse_fail htag]

theorem runChecks_map_fst (cfg : Config) (net : Nat → DoResult) :
    ∀ (imgs : List ImageInfo) (cache : Cache),
      ((runChecks cfg net imgs cache).1).map Prod.fst = imgs := by
  intro imgs
  induction imgs with
  | nil =>
    intro cache
    rfl
  | cons img rest ih =>
    intro cache
    rw [runChecks]
    rw [List.map_cons]
    rw [ih]

theorem runChecks_err_outcomes (cfg : Config) (net : Nat → DoResult)
    (img : ImageInfo) (tags : List String)
    (htag : NewVersion img.Tag = none) :
    ∀ (imgs : List ImageInfo) (cache : Cache),
      cacheLookup cache (img.Registry ++ "/" ++ img.Repo) = some tags →
      ∀ p ∈ (runChecks cfg net imgs cache).1, p.1 = img →
        p.2 = .err "error parsing current version: Invalid Semantic Version" := by
  intro imgs
  induction imgs with
  | nil =>
    intro cache _ p hp
    exact absurd hp (List.not_mem_nil p)
  | cons hd tl ih =>
    intro cache hhit p hp hpimg
    rw [runChecks] at hp
    rcases List.mem_cons.mp hp with hphd | hptl
    · subst hphd
      have hhd : hd = img := hpimg
      subst hhd
      show (imageTask cfg net hd cache).1 = _
      unfold imageTask
      rw [checkForUpdates_parse_fail_of_hit hhit htag]
    · refine ih _ ?_ p hptl hpimg
      show cacheLookup (imageTask cfg net hd cache).2.1 _ = some tags
      unfold imageTask
      exact checkForUpdates_cache_mono hhit

theorem runChecks_err_logged (cfg : Config) (net : Nat → DoResult)
    (img : ImageInfo) (tags : List String)
    (htag : NewVersion img.Tag = none) :
    ∀ (imgs : List ImageInfo) (cache : Cache),
      cacheLookup cache (img.Registry ++ "/" ++ img.Repo) = some tags →
      img ∈ imgs →
      ("Error checking for updates for " ++ img.Repo ++ ": " ++
          "error parsing current version: Invalid Semantic Version") ∈
        loggedOf (runChecks cfg net imgs cache).1 := by
  intro imgs
  induction imgs with
  | nil =>
    intro cache _ hmem
    exact absurd hmem (List.not_mem_nil img)
  | cons hd tl ih =>
    intro cache hhit hmem
    rw [runChecks]
    unfold loggedOf
    rw [List.filterMap_cons]
    rcases List.mem_cons.mp hmem with hhd | htl
    · subst hhd
      have hout : (imageTask cfg net img cache).1 =
          .err "error parsing current version: Invalid Semantic Version" := by
        unfold imageTask
        rw [checkForUpdates_parse_fail_of_hit hhit htag]
      rw [hout]
      exact List.mem_cons_self _ _
    · have hrec := ih ((imageTask cfg net hd cache).2.1)
        (by
          unfold imageTask
          exact checkForUpdates_cache_mono hhit) htl
      cases houtcome : (imageTask cfg net hd cache).1 with
      | ok s => exact hrec
      | err e => exact List.mem_cons_of_mem _ hrec
      | panicked => exact hrec

theorem stringData_append (a b : String) :
    (a ++ b).data = a.data ++ b.data := by
  cases a
  cases b
  rfl

theorem updateMsg_ne_empty (repo : String) (cur latest : SemVer) :
    updateMsg repo cur latest ≠ "" := by
  intro h
  have hd := congrArg String.data h
  unfold updateMsg at hd
  rw [stringData_append, stringData_append, stringData_append,
    stringData_append, stringData_append] at hd
  rw [show ("" : String).data = [] from rfl] at hd
  rw [List.append_eq_nil, List.append_eq_nil, List.append_eq_nil,
    List.append_eq_nil, List.append_eq_nil] at hd
  have hu : ("Update available for " : String).data ≠ [] := by decide
  exact hu hd.1.1.1.1.1

theorem getRemoteTags_ne_nilDeref {cfg : Config} {net : Nat → DoResult}
    {reg repo am : String} {cache : Cache} (hmr : 1 ≤ cfg.MaxRetries) :
    (getRemoteTags cfg net reg repo am cache).1 ≠ .nilDeref := by
  cases hl : cacheLookup cache (reg ++ "/" ++ repo) with
  | some tags =>
    rw [getRemoteTags_hit hl]
    exact fun hh => FetchResult.noConfusion hh
  | none =>
    rw [getRemoteTags_miss_eq hl]
    split
    · exact fun hh => FetchResult.noConfusion hh
    · rename_i tr heq
      exfalso
      have hfuel : 1 ≤ cfg.MaxRetries.toNat := by omega
      have := fetchLoop_ne_noIter cfg net am cfg.MaxRetries.toNat 0
        cfg.RetryDelay {} hfuel
      rw [heq] at this
      exact this rfl
    · split
      · exact fun hh => FetchResult.noConfusion hh
      · exact fun hh => FetchResult.noConfusion hh

theorem getRemoteTags_nilDeref_of_nonpos {cfg : Config} {net : Nat → DoResult}
    {reg repo am : String} {cache : Cache} (hmr : cfg.MaxRetries ≤ 0)
    (hmiss : cacheLookup cache (reg ++ "/" ++ repo) = none) :
    (getRemoteTags cfg net reg repo am cache).1 = .nilDeref := by
  rw [getRemoteTags_miss_eq hmiss]
  have hfuel : cfg.MaxRetries.toNat = 0 := by omega
  rw [hfuel, fetchLoop]

/-! ## The claims -/

/-- Claim C1, counterexample: for a concrete image whose cache key is
present in the Tag Cache, the per-image task of the orchestrator still
consumes one rate-limiter tick (the `<-rateLimiter.C` of main.go:56 runs
before the cache is ever consulted), refuting "checking such an image
consumes no rate-limiter tick". -/
theorem cached_check_still_consumes_a_tick :
    cacheLookup [("gcr.io/proj/app", ["1.0.0"])]
        ("gcr.io" ++ "/" ++ "proj/app") = some ["1.0.0"] ∧
    (imageTask ⟨"tok", 100000000, 3, 1000000000⟩ (fun _ => .netErr "unused")
        ⟨"gcr.io", "proj/app", "1.0.0"⟩
        [("gcr.io/proj/app", ["1.0.0"])]).2.2 = 1 := by
  constructor
  · rfl
  · rfl

/-- Claim C1, amended: for every image whose cache key is present in the
Tag Cache, the Fetcher returns the cached tag list immediately, with no
network request, no sleep, and no cache change — but the orchestrator's
task for the image still consumes exactly one rate-limiter tick, because
the tick is taken before the check starts, regardless of cache state. -/
theorem cached_fetch_no_network_but_one_tick (cfg : Config)
    (net : Nat → DoResult) (img : ImageInfo) (cache : Cache)
    (tags : List String)
    (hhit : cacheLookup cache (img.Registry ++ "/" ++ img.Repo) = some tags) :
    getRemoteTags cfg net img.Registry img.Repo "gcloud" cache =
      (.ok tags, cache, ⟨0, []⟩) ∧
    (imageTask cfg net img cache).2.2 = 1 := by
  constructor
  · exact getRemoteTags_hit hhit
  · rfl

/-- Claim C1, witness for the amended theorem at a concrete cached image. -/
theorem cached_fetch_no_network_but_one_tick_witness :
    getRemoteTags ⟨"tok", 100000000, 3, 1000000000⟩ (fun _ => .netErr "unused")
        "gcr.io" "proj/app" "gcloud" [("gcr.io/proj/app", ["1.0.0"])] =
      (.ok ["1.0.0"], [("gcr.io/proj/app", ["1.0.0"])], ⟨0, []⟩) ∧
    (imageTask ⟨"tok", 100000000, 3, 1000000000⟩ (fun _ => .netErr "unused")
        ⟨"gcr.io", "proj/app", "1.0.0"⟩
        [("gcr.io/proj/app", ["1.0.0"])]).2.2 = 1 :=
  cached_fetch_no_network_but_one_tick ⟨"tok", 100000000, 3, 1000000000⟩
    (fun _ => .netErr "unused") ⟨"gcr.io", "proj/app", "1.0.0"⟩
    [("gcr.io/proj/app", ["1.0.0"])] ["1.0.0"] rfl

/-- Claim C2: on an uncached key, against an endpoint failing on every
attempt and with a token configured, `getRemoteTags` makes exactly
`MaxRetries` network requests, sleeps the delays `retryDelay, 2·retryDelay,
4·retryDelay, …` (one before each of the `MaxRetries - 1` retries), leaves
the cache unchanged, and fails with the "max retries exceeded" error built
from the last attempt's network error or status code. -/
theorem fetch_failing_endpoint_retry_schedule (cfg : Config)
    (net : Nat → DoResult) (reg repo : String) (cache : Cache)
    (hmr : 1 ≤ cfg.MaxRetries)
    (htok : cfg.GCRAccessToken ≠ "")
    (hmiss : cacheLookup cache (reg ++ "/" ++ repo) = none)
    (hfail : ∀ j, isSuccess (net j) = false) :
    getRemoteTags cfg net reg repo "gcloud" cache =
      (.error (failMsg (net (cfg.MaxRetries.toNat - 1))), cache,
        ⟨cfg.MaxRetries.toNat,
          (List.range (cfg.MaxRetries.toNat - 1)).map
            (fun j => cfg.RetryDelay * 2 ^ j)⟩) := by
  rw [getRemoteTags_miss_eq hmiss]
  obtain ⟨k, hk⟩ : ∃ k, cfg.MaxRetries.toNat = k + 1 :=
    ⟨cfg.MaxRetries.toNat - 1, by omega⟩
  have hauth : ¬("gcloud" = "gcloud" ∧ cfg.GCRAccessToken = "") :=
    fun hh => htok hh.2
  rw [hk, fetchLoop_all_fail cfg net "gcloud" hauth hfail k 0
    cfg.RetryDelay {}]
  simp

/-- Claim C2, witness: three total attempts against an endpoint that always
answers HTTP 500, with base delay 7: requests 3, sleeps `[7, 14]`, and the
"max retries exceeded" error naming status 500. -/
theorem fetch_failing_endpoint_retry_schedule_witness :
    getRemoteTags ⟨"tok", 0, 3, 7⟩ (fun _ => .resp 500 (.error "boom"))
        "gcr.io" "proj/app" "gcloud" [] =
      (.error "max retries exceeded: unexpected status code: 500", [],
        ⟨3, [7, 14]⟩) := by
  have h := fetch_failing_endpoint_retry_schedule ⟨"tok", 0, 3, 7⟩
    (fun _ => .resp 500 (.error "boom")) "gcr.io" "proj/app" []
    (by decide) (by decide) rfl (fun _ => rfl)
  exact h.trans (by decide)

/-- Claim C3: when the remote tag list was fetched successfully and the
local tag parses, the check prints the update message exactly when the
fold-selected latest remote version — proved to be a member of the parsed
remote versions that no parsed remote version strictly exceeds — strictly
exceeds the current version; ties and non-exceeding maxima give the empty
(up-to-date) result, unparseable remote tags are simply excluded, and if
no remote tag parses at all the image is reported up to date. -/
theorem update_reported_iff_max_remote_exceeds_current (cfg : Config)
    (net : Nat → DoResult) (img : ImageInfo) (cache c : Cache)
    (tags : List String) (tr : FetchTrace) (cur : SemVer)
    (hfetch : getRemoteTags cfg net img.Registry img.Repo "gcloud" cache =
      (.ok tags, c, tr))
    (hcur : NewVersion img.Tag = some cur) :
    (∃ m, maxRemote tags = some m ∧
      m ∈ tags.filterMap NewVersion ∧
      (∀ v ∈ tags.filterMap NewVersion, greaterThan v m = false) ∧
      ((checkForUpdates cfg net img cache).1 =
          .ok (updateMsg img.Repo cur m) ↔ greaterThan m cur = true) ∧
      ((checkForUpdates cfg net img cache).1 = .ok "" ↔
          greaterThan m cur = false)) ∨
    (tags.filterMap NewVersion = [] ∧ maxRemote tags = none ∧
      (checkForUpdates cfg net img cache).1 = .ok "") := by
  have hck := checkForUpdates_fetch_ok hfetch
  cases hmax : maxRemote tags with
  | none =>
    right
    refine ⟨maxRemote_none_iff.mp hmax, rfl, ?_⟩
    rw [hck, compareTags_none hcur hmax]
  | some m =>
    left
    refine ⟨m, rfl, maxRemote_mem hmax, maxRemote_ub hmax, ?_, ?_⟩
    · rw [hck, compareTags_result hcur hmax]
      cases hg : greaterThan m cur with
      | true =>
        rw [if_pos rfl]
        constructor
        · intro _
          rfl
        · intro _
          rfl
      | false =>
        rw [if_neg (fun hh => Bool.noConfusion hh)]
        constructor
        · intro h
          exact absurd (CheckOutcome.ok.inj h).symm
            (updateMsg_ne_empty img.Repo cur m)
        · intro h
          exact Bool.noConfusion h
    · rw [hck, compareTags_result hcur hmax]
      cases hg : greaterThan m cur with
      | true =>
        rw [if_pos rfl]
        constructor
        · intro h
          exact absurd (CheckOutcome.ok.inj h)
            (updateMsg_ne_empty img.Repo cur m)
        · intro h
          exact Bool.noConfusion h
      | false =>
        rw [if_neg (fun hh => Bool.noConfusion hh)]
        constructor
        · intro _
          rfl
        · intro _
          rfl

/-- Claim C3, witness: remote tags `["1.0.1", "abc"]` against current
`1.0.0` (fetched from the cache), plus the concrete printed message. -/
theorem update_reported_iff_max_remote_exceeds_current_witness :
    ((∃ m, maxRemote ["1.0.1", "abc"] = some m ∧
      m ∈ (["1.0.1", "abc"] : List String).filterMap NewVersion ∧
      (∀ v ∈ (["1.0.1", "abc"] : List String).filterMap NewVersion,
        greaterThan v m = false) ∧
      ((checkForUpdates ⟨"tok", 0, 3, 7⟩ (fun _ => .netErr "unused")
          ⟨"gcr.io", "proj/app", "1.0.0"⟩
          [("gcr.io/proj/app", ["1.0.1", "abc"])]).1 =
          .ok (updateMsg "proj/app" ⟨1, 0, 0, "", "", "1.0.0"⟩ m) ↔
          greaterThan m ⟨1, 0, 0, "", "", "1.0.0"⟩ = true) ∧
      ((checkForUpdates ⟨"tok", 0, 3, 7⟩ (fun _ => .netErr "unused")
          ⟨"gcr.io", "proj/app", "1.0.0"⟩
          [("gcr.io/proj/app", ["1.0.1", "abc"])]).1 = .ok "" ↔
          greaterThan m ⟨1, 0, 0, "", "", "1.0.0"⟩ = false)) ∨
    ((["1.0.1", "abc"] : List String).filterMap NewVersion = [] ∧
      maxRemote ["1.0.1", "abc"] = none ∧
      (checkForUpdates ⟨"tok", 0, 3, 7⟩ (fun _ => .netErr "unused")
          ⟨"gcr.io", "proj/app", "1.0.0"⟩
          [("gcr.io/proj/app", ["1.0.1", "abc"])]).1 = .ok "")) ∧
    (checkForUpdates ⟨"tok", 0, 3, 7⟩ (fun _ => .netErr "unused")
        ⟨"gcr.io", "proj/app", "1.0.0"⟩
        [("gcr.io/proj/app", ["1.0.1", "abc"])]).1 =
      .ok "Update available for proj/app: 1.0.0 -> 1.0.1" :=
  ⟨update_reported_iff_max_remote_exceeds_current ⟨"tok", 0, 3, 7⟩
      (fun _ => .netErr "unused") ⟨"gcr.io", "proj/app", "1.0.0"⟩
      [("gcr.io/proj/app", ["1.0.1", "abc"])]
      [("gcr.io/proj/app", ["1.0.1", "abc"])] ["1.0.1", "abc"] ⟨0, []⟩
      ⟨1, 0, 0, "", "", "1.0.0"⟩ (by decide) (by decide),
    by decide⟩

/-- Claim C4 (code bug): two concurrent checks for the same uncached key,
each decomposed at the `client.Do` suspension point of `getRemoteTags`,
can both read the cache before either writes it; that schedule performs
two successful network fetches for the key, while a sequential schedule
performs one. The unsynchronized map gives no at-most-one-fetch guarantee
(and the concurrent `cache[cacheKey] = …` writes themselves are a Go data
race). -/
theorem concurrent_same_key_two_fetches :
    (raceRun "gcr.io/proj/app" ["1.0.1"] [false, true, false, true]
        ⟨[], .start, .start, 0⟩).fetches = 2 ∧
    (raceRun "gcr.io/proj/app" ["1.0.1"] [false, false, true, true]
        ⟨[], .start, .start, 0⟩).fetches = 1 := by
  constructor
  · rfl
  · rfl

/-- Claim C5: on an uncached key with auth method "gcloud" and an empty
configured token, `getRemoteTags` fails at once with the
authentication-configuration error: zero network requests, zero sleeps,
cache unchanged. (`MaxRetries ≥ 1` makes the loop body run; its very
first action after building the request is the token check.) -/
theorem missing_token_fails_immediately_no_retry (cfg : Config)
    (net : Nat → DoResult) (reg repo : String) (cache : Cache)
    (hmr : 1 ≤ cfg.MaxRetries)
    (htok : cfg.GCRAccessToken = "")
    (hmiss : cacheLookup cache (reg ++ "/" ++ repo) = none) :
    getRemoteTags cfg net reg repo "gcloud" cache =
      (.error "GCR_ACCESS_TOKEN not set in config", cache, ⟨0, []⟩) := by
  rw [getRemoteTags_miss_eq hmiss]
  obtain ⟨k, hk⟩ : ∃ k, cfg.MaxRetries.toNat = k + 1 :=
    ⟨cfg.MaxRetries.toNat - 1, by omega⟩
  rw [hk, fetchLoop, if_pos ⟨rfl, htok⟩]

/-- Claim C5, witness at a concrete empty-token configuration. -/
theorem missing_token_fails_immediately_no_retry_witness :
    getRemoteTags ⟨"", 0, 3, 7⟩ (fun _ => .netErr "unreachable")
        "gcr.io" "proj/app" "gcloud" [] =
      (.error "GCR_ACCESS_TOKEN not set in config", [], ⟨0, []⟩) :=
  missing_token_fails_immediately_no_retry ⟨"", 0, 3, 7⟩
    (fun _ => .netErr "unreachable") "gcr.io" "proj/app" []
    (by decide) rfl rfl

/-- Claim C6, counterexample: with an endpoint that fails once and then
succeeds, the first (successful) Fetcher call already issues two network
requests, refuting "at most one network request is issued in total". -/
theorem first_call_with_retry_issues_two_requests :
    (getRemoteTags ⟨"tok", 0, 3, 7⟩
        (fun i => if i = 0 then .resp 500 (.error "oops")
          else .resp 200 (.ok ["1.0.1"]))
        "gcr.io" "proj/app" "gcloud" []).1 = .ok ["1.0.1"] ∧
    (getRemoteTags ⟨"tok", 0, 3, 7⟩
        (fun i => if i = 0 then .resp 500 (.error "oops")
          else .resp 200 (.ok ["1.0.1"]))
        "gcr.io" "proj/app" "gcloud" []).2.2.requests = 2 := by
  constructor
  · decide
  · decide

/-- Claim C6, amended: once a first call on an uncached key succeeds, the
cache holds exactly its tag list under the key, and every subsequent call
for the same key returns the identical list with zero network requests
and zero sleeps; the run's total request count is therefore that of the
first call alone (which is 1 exactly when its first attempt succeeded). -/
theorem subsequent_calls_hit_cache_no_requests (cfg : Config)
    (net : Nat → DoResult) (reg repo am : String) (cache c : Cache)
    (tags : List String) (tr : FetchTrace)
    (hmiss : cacheLookup cache (reg ++ "/" ++ repo) = none)
    (hok : getRemoteTags cfg net reg repo am cache = (.ok tags, c, tr)) :
    c = (reg ++ "/" ++ repo, tags) :: cache ∧
    getRemoteTags cfg net reg repo am c = (.ok tags, c, ⟨0, []⟩) := by
  have hc := getRemoteTags_ok_cache hmiss hok
  refine ⟨hc, ?_⟩
  have hhit : cacheLookup c (reg ++ "/" ++ repo) = some tags := by
    rw [hc, cacheLookup_cons, if_pos rfl]
  exact getRemoteTags_hit hhit

/-- Claim C6, witness: the retry-then-success endpoint; the second call is
a cache hit with zero requests. -/
theorem subsequent_calls_hit_cache_no_requests_witness :
    ([("gcr.io/proj/app", ["1.0.1"])] : Cache) =
      ("gcr.io" ++ "/" ++ "proj/app", ["1.0.1"]) :: [] ∧
    getRemoteTags ⟨"tok", 0, 3, 7⟩
        (fun i => if i = 0 then .resp 500 (.error "oops")
          else .resp 200 (.ok ["1.0.1"]))
        "gcr.io" "proj/app" "gcloud" [("gcr.io/proj/app", ["1.0.1"])] =
      (.ok ["1.0.1"], [("gcr.io/proj/app", ["1.0.1"])], ⟨0, []⟩) :=
  subsequent_calls_hit_cache_no_requests ⟨"tok", 0, 3, 7⟩
    (fun i => if i = 0 then .resp 500 (.error "oops")
      else .resp 200 (.ok ["1.0.1"]))
    "gcr.io" "proj/app" "gcloud" [] [("gcr.io/proj/app", ["1.0.1"])]
    ["1.0.1"] ⟨2, [7]⟩ rfl (by decide)

/-- Claim C7 (code bug): `parseImageName` on the two-segment line
`docker.io/nginx:1.0` produces the repository `"/nginx"` with a spurious
leading slash (the unconditional `repo += "/" + name` of main.go:226),
instead of the "everything between registry and tag" `"nginx"`; bare
`repository:tag` lines and other unparseable lines are skipped and logged
without failing the enumeration. -/
theorem two_segment_image_repo_gets_leading_slash :
    parseImageName "docker.io/nginx:1.0" =
      .ok ⟨"docker.io", "/nginx", "1.0"⟩ ∧
    parseImageName "gcr.io/proj/app:1.2.3" =
      .ok ⟨"gcr.io", "proj/app", "1.2.3"⟩ ∧
    collectImages ["nginx:1.0", "gcr.io/proj/app:1.2.3"] =
      ([⟨"gcr.io", "proj/app", "1.2.3"⟩],
        ["Error parsing image name nginx:1.0: invalid image name format"]) := by
  refine ⟨by decide, by decide, by decide⟩

/-- Claim C8: an image whose local tag does not parse as a semantic
version (here with its remote tags cached, so the fetch step succeeds)
fails its own check with the wrapped "error parsing current version"
error; the failure is logged for that image and scoped to it — the run
still produces exactly one outcome per input image. -/
theorem unparseable_local_tag_error_scoped_to_image (cfg : Config)
    (net : Nat → DoResult) (imgs : List ImageInfo) (cache : Cache)
    (img : ImageInfo) (tags : List String)
    (hmem : img ∈ imgs)
    (htag : NewVersion img.Tag = none)
    (hhit : cacheLookup cache (img.Registry ++ "/" ++ img.Repo) = some tags) :
    ((runChecks cfg net imgs cache).1).map Prod.fst = imgs ∧
    (∀ p ∈ (runChecks cfg net imgs cache).1, p.1 = img →
      p.2 = .err "error parsing current version: Invalid Semantic Version") ∧
    ("Error checking for updates for " ++ img.Repo ++ ": " ++
        "error parsing current version: Invalid Semantic Version") ∈
      loggedOf (runChecks cfg net imgs cache).1 :=
  ⟨runChecks_map_fst cfg net imgs cache,
    runChecks_err_outcomes cfg net img tags htag imgs cache hhit,
    runChecks_err_logged cfg net img tags htag imgs cache hhit hmem⟩

/-- Claim C8, witness: a two-image run where the first image's tag
`latest` does not parse; the second image's check still runs. -/
theorem unparseable_local_tag_error_scoped_to_image_witness :
    ((runChecks ⟨"tok", 0, 3, 7⟩ (fun _ => .netErr "unused")
        [⟨"gcr.io", "proj/app", "latest"⟩, ⟨"gcr.io", "proj/other", "1.0.0"⟩]
        [("gcr.io/proj/app", ["1.0.0"]),
          ("gcr.io/proj/other", ["1.0.0"])]).1).map Prod.fst =
      [⟨"gcr.io", "proj/app", "latest"⟩, ⟨"gcr.io", "proj/other", "1.0.0"⟩] ∧
    (∀ p ∈ (runChecks ⟨"tok", 0, 3, 7⟩ (fun _ => .netErr "unused")
        [⟨"gcr.io", "proj/app", "latest"⟩, ⟨"gcr.io", "proj/other", "1.0.0"⟩]
        [("gcr.io/proj/app", ["1.0.0"]),
          ("gcr.io/proj/other", ["1.0.0"])]).1,
      p.1 = ⟨"gcr.io", "proj/app", "latest"⟩ →
      p.2 = .err "error parsing current version: Invalid Semantic Version") ∧
    ("Error checking for updates for " ++ "proj/app" ++ ": " ++
        "error parsing current version: Invalid Semantic Version") ∈
      loggedOf (runChecks ⟨"tok", 0, 3, 7⟩ (fun _ => .netErr "unused")
        [⟨"gcr.io", "proj/app", "latest"⟩, ⟨"gcr.io", "proj/other", "1.0.0"⟩]
        [("gcr.io/proj/app", ["1.0.0"]),
          ("gcr.io/proj/other", ["1.0.0"])]).1 :=
  unparseable_local_tag_error_scoped_to_image ⟨"tok", 0, 3, 7⟩
    (fun _ => .netErr "unused")
    [⟨"gcr.io", "proj/app", "latest"⟩, ⟨"gcr.io", "proj/other", "1.0.0"⟩]
    [("gcr.io/proj/app", ["1.0.0"]), ("gcr.io/proj/other", ["1.0.0"])]
    ⟨"gcr.io", "proj/app", "latest"⟩ ["1.0.0"]
    (by decide) (by decide) rfl

/-- Claim C9: whenever `getRemoteTags` returns an error — missing token,
max retries exceeded, or JSON decode failure — the returned cache is the
input cache, unchanged: only a fully successful fetch-and-decode writes
an entry. -/
theorem fetch_error_leaves_cache_unchanged (cfg : Config)
    (net : Nat → DoResult) (reg repo am : String) (cache c : Cache)
    (msg : String) (tr : FetchTrace)
    (h : getRemoteTags cfg net reg repo am cache = (.error msg, c, tr)) :
    c = cache :=
  getRemoteTags_error_cache h

/-- Claim C9, witness: a decode failure on a populated cache leaves the
existing entry as the whole cache. -/
theorem fetch_error_leaves_cache_unchanged_witness :
    getRemoteTags ⟨"tok", 0, 3, 7⟩ (fun _ => .resp 200 (.error "bad json"))
        "gcr.io" "proj/app" "gcloud" [("other/repo", ["keep"])] =
      (.error "error decoding JSON response: bad json",
        [("other/repo", ["keep"])], ⟨1, []⟩) ∧
    ([("other/repo", ["keep"])] : Cache) = [("other/repo", ["keep"])] :=
  ⟨by decide,
    fetch_error_leaves_cache_unchanged ⟨"tok", 0, 3, 7⟩
      (fun _ => .resp 200 (.error "bad json")) "gcr.io" "proj/app" "gcloud"
      [("other/repo", ["keep"])] [("other/repo", ["keep"])]
      "error decoding JSON response: bad json" ⟨1, []⟩ (by decide)⟩

/-- Claim C10: `MaxRetries ≥ 1` guarantees the fetcher never dereferences
the nil response (the loop always runs); `MaxRetries ≤ 0` on an uncached
key makes the loop run zero times and the function dereference the nil
response; and the config defaulting replaces only a `MaxRetries` of
exactly `0`, so negative configured values reach the fetcher unchanged. -/
theorem maxRetries_defaulting_and_nil_deref_safety :
    (∀ (cfg : Config) (net : Nat → DoResult) (reg repo am : String)
        (cache : Cache), 1 ≤ cfg.MaxRetries →
      (getRemoteTags cfg net reg repo am cache).1 ≠ .nilDeref) ∧
    (∀ (cfg : Config) (net : Nat → DoResult) (reg repo am : String)
        (cache : Cache), cfg.MaxRetries ≤ 0 →
      cacheLookup cache (reg ++ "/" ++ repo) = none →
      (getRemoteTags cfg net reg repo am cache).1 = .nilDeref) ∧
    (∀ c : Config, c.MaxRetries < 0 →
      (applyConfigDefaults c).MaxRetries = c.MaxRetries) := by
  refine ⟨?_, ?_, ?_⟩
  · intro cfg net reg repo am cache hmr
    exact getRemoteTags_ne_nilDeref hmr
  · intro cfg net reg repo am cache hmr hmiss
    exact getRemoteTags_nilDeref_of_nonpos hmr hmiss
  · intro c hneg
    obtain ⟨tok, rl, mr, rd⟩ := c
    simp only [applyConfigDefaults]
    split_ifs <;> simp_all

/-- Claim C10, witness: with `MaxRetries = -1` (which survives the
defaulting) the fetcher hits the nil dereference; with the default `3` it
never does. -/
theorem maxRetries_defaulting_and_nil_deref_safety_witness :
    (getRemoteTags ⟨"tok", 0, 3, 7⟩ (fun _ => .netErr "x")
        "gcr.io" "proj/app" "gcloud" []).1 ≠ .nilDeref ∧
    (getRemoteTags ⟨"tok", 0, -1, 7⟩ (fun _ => .netErr "x")
        "gcr.io" "proj/app" "gcloud" []).1 = .nilDeref ∧
    (applyConfigDefaults ⟨"tok", 0, -1, 7⟩).MaxRetries = -1 :=
  ⟨maxRetries_defaulting_and_nil_deref_safety.1 ⟨"tok", 0, 3, 7⟩
      (fun _ => .netErr "x") "gcr.io" "proj/app" "gcloud" [] (by decide),
    maxRetries_defaulting_and_nil_deref_safety.2.1 ⟨"tok", 0, -1, 7⟩
      (fun _ => .netErr "x") "gcr.io" "proj/app" "gcloud" [] (by decide) rfl,
    maxRetries_defaulting_and_nil_deref_safety.2.2 ⟨"tok", 0, -1, 7⟩
      (by decide)⟩

end DockOps
